import Mathlib

/-
Verification development for the SNN-SCTN spiking-network simulation engine.

The central source file is src/snn/spiking_network.py (class SpikingNetwork).
Its collaborators snn/spiking_neuron.py (SCTNeuron, ctn_cycle), snn/layers.py
(SCTNLayer) and helpers/graphs.py (DirectedEdgeListGraph) are not part of the
source tree available here; those parts are modelled from the specification
(spec.md sections 3, 4.1, 4.2 and 9) and are marked "Modelled from the spec"
in their doc comments.

Numeric values (float32/float64 in the source) are represented by ℚ in the
network development, so that every definition is executable and every concrete
run can be settled by kernel evaluation.  The quarter-wave sine table that
SpikingNetwork.__init__ builds with np.sin is treated separately over ℝ
(definitions clkSine, clkStateAfter, clkSample below) because its entries are
irrational; the network structure itself carries the table as an abstract
list of rationals supplied at construction time.

Python object aliasing: in the source, the same SCTNeuron objects are held by
network.neurons and by the layers, and mutating a neuron (its _id during a
merge, its state during a cycle) is visible through both.  The embedding keeps
the layer lists as the live simulation state (SpikingNetwork.input in the
source iterates over the layers only) and applies id-rewrites explicitly to
both copies where the source relies on sharing.
-/

attribute [local semireducible] Rat.mul Rat.add Rat.sub Rat.inv

namespace SNN

/-- Modelled from the spec: the activation-function selector of a neuron
(spec section 3, "an activation-function selector (at minimum: identity
pass-through and pulse-generating variants)"). -/
inductive ActivationKind : Type
  | identity : ActivationKind
  | binary : ActivationKind
deriving DecidableEq, Repr

/-- Modelled from the spec: snn/spiking_neuron.py is not in src/.  Fields
follow spec section 3 ("Neuron": identity, parameters, runtime state); only
the parts exercised by the network-level claims are kept (the optional
learning rule and the diagnostic log flags are not needed by any claim). -/
structure SCTNeuron : Type where
  _id : ℕ
  synapses_weights : List ℚ
  leakage_factor : ℕ
  leakage_period : ℕ
  leakage_timer : ℕ
  theta : ℚ
  activation_function : ActivationKind
  membrane_should_reset : Bool
  use_clk_input : Bool
  membrane_potential : ℚ
  out_spikes : List ℕ
  tick_index : ℕ
deriving DecidableEq, Repr

instance : Inhabited SCTNeuron :=
  ⟨{ _id := 0, synapses_weights := [], leakage_factor := 0, leakage_period := 0,
     leakage_timer := 0, theta := 0, activation_function := .identity,
     membrane_should_reset := false, use_clk_input := false,
     membrane_potential := 0, out_spikes := [], tick_index := 0 }⟩

/-- Weighted input of a neuron: dot product of the weight vector with the
incoming spike values, pairing in order (spec section 4.2 step 2). -/
def dot (ws xs : List ℚ) : ℚ :=
  (ws.zip xs).foldl (fun a p => a + p.1 * p.2) 0

/-- Modelled from the spec: the leakage step of the neuron state machine
(spec section 4.2 step 3, "apply configured leakage (exponential-like decay
parameterized by leakage factor and leakage period — decay strength is
governed by leakage_period ticks per decay step)").  Returns the decayed
membrane potential and the new value of the internal decay counter.  The
concrete decay chosen divides the potential by 2 ^ leakage_factor once every
leakage_period ticks; with leakage_period = 0 no decay step ever fires. -/
def applyLeak (n : SCTNeuron) : ℚ × ℕ :=
  if (n.leakage_timer + 1) % n.leakage_period = 0 then
    (n.membrane_potential - n.membrane_potential / 2 ^ n.leakage_factor, 0)
  else
    (n.membrane_potential, n.leakage_timer + 1)

/-- Modelled from the spec: SCTNeuron.ctn_cycle (snn/spiking_neuron.py is not
in src/).  One state transition per tick, following spec section 4.2 steps
2-6: weighted input, leakage, integration, activation (identity passes the
raw potential through; the binary variant compares to theta), optional reset
on fire, spike-history append.  The disabled case follows the design note of
spec section 9: "preserve the literal behavior (state still updates, only the
emitted value is suppressed)", so the membrane potential, leak timer and tick
counter still advance but the emitted value is 0, no spike is recorded and no
reset fires. -/
def ctn_cycle (n : SCTNeuron) (inputs : List ℚ) (enable : Bool) : SCTNeuron × ℚ :=
  let weighted := dot n.synapses_weights inputs
  let lk := applyLeak n
  let pot := lk.1 + weighted
  let fired : Bool :=
    match n.activation_function with
    | .identity => false
    | .binary => decide (n.theta < pot)
  let emitted : ℚ :=
    match n.activation_function with
    | .identity => pot
    | .binary => if n.theta < pot then 1 else 0
  if enable then
    ({ n with
        membrane_potential := if fired && n.membrane_should_reset then 0 else pot,
        leakage_timer := lk.2,
        out_spikes := if fired then n.out_spikes ++ [n.tick_index] else n.out_spikes,
        tick_index := n.tick_index + 1 }, emitted)
  else
    ({ n with
        membrane_potential := pot,
        leakage_timer := lk.2,
        tick_index := n.tick_index + 1 }, 0)

/-- Modelled from the spec: helpers/graphs.py DirectedEdgeListGraph is not in
src/.  Spec section 4.1: edges are ordered pairs stored in insertion order
(the order is semantically load-bearing), and the graph keeps one scalar per
node, the node's most recently emitted spike value. -/
structure DirectedEdgeListGraph : Type where
  edges : List (ℕ × ℕ)
  spikes : List ℚ
deriving DecidableEq, Repr

namespace DirectedEdgeListGraph

/-- Modelled from the spec: add_node assigns the next integer id (ids grow
with the node count, spec section 3: "a stable integer id, assigned at
insertion into a network") and creates the node's spike scalar. -/
def add_node (g : DirectedEdgeListGraph) : DirectedEdgeListGraph × ℕ :=
  ({ g with spikes := g.spikes ++ [0] }, g.spikes.length)

/-- Modelled from the spec: connect appends one directed edge, preserving
insertion order (spec section 4.1). -/
def connect_by_id (g : DirectedEdgeListGraph) (source target : ℕ) : DirectedEdgeListGraph :=
  { g with edges := g.edges ++ [(source, target)] }

/-- Modelled from the spec: update_spike overwrites the per-node scalar (spec
section 4.1, "overwrite current scalar for node — no history retained"). -/
def update_spike (g : DirectedEdgeListGraph) (node : ℕ) (value : ℚ) : DirectedEdgeListGraph :=
  { g with spikes := g.spikes.set node value }

/-- Modelled from the spec: input_spikes_to produces the current spike values
of all edges targeting the node, in edge-insertion order (spec section 4.1). -/
def get_input_spikes_to (g : DirectedEdgeListGraph) (node : ℕ) : List ℚ :=
  (g.edges.filter (fun e => e.2 == node)).map (fun e => g.spikes.getD e.1 0)

/-- Modelled from the spec: merging two graphs renumbers the incoming graph's
node ids by an offset equal to the current graph's node count, re-bases every
edge accordingly, and returns that offset to the caller (spec section 4.1). -/
def add_graph (g h : DirectedEdgeListGraph) : DirectedEdgeListGraph × ℕ :=
  let offset := g.spikes.length
  ({ edges := g.edges ++ h.edges.map (fun e => (e.1 + offset, e.2 + offset)),
     spikes := g.spikes ++ h.spikes }, offset)

end DirectedEdgeListGraph

/-- Modelled from the spec: snn/layers.py SCTNLayer is not in src/.  Spec
section 3: "an ordered sequence of neuron references with no independent
identity beyond grouping". -/
structure SCTNLayer : Type where
  neurons : List SCTNeuron
deriving DecidableEq, Repr

instance : Inhabited SCTNLayer := ⟨⟨[]⟩⟩

/-- Modelled from the spec: SCTNLayer.merge (used by
SpikingNetwork.add_network, src/snn/spiking_network.py line 83) appends the
incoming layer's neurons to this layer's ordered list. -/
def SCTNLayer.merge (a b : SCTNLayer) : SCTNLayer :=
  ⟨a.neurons ++ b.neurons⟩

/-- The network state, from src/snn/spiking_network.py lines 13-46.  The
clk_freq_sine table is carried as an abstract list of rationals: the source
fills it with float32 samples of a quarter sine wave; the exact real-valued
table is analysed separately (clkSine below). -/
structure SpikingNetwork : Type where
  clk_freq : ℕ
  clk_freq_sine : List ℚ
  clk_freq_i : ℕ
  clk_freq_qrt : ℕ
  amplitude : List ℚ
  enable_by : List ℤ
  neurons : List SCTNeuron
  spikes_graph : DirectedEdgeListGraph
  layers_neurons : List SCTNLayer
deriving DecidableEq, Repr

instance : Inhabited SpikingNetwork :=
  ⟨{ clk_freq := 0, clk_freq_sine := [], clk_freq_i := 0, clk_freq_qrt := 0,
     amplitude := [], enable_by := [], neurons := [],
     spikes_graph := { edges := [], spikes := [] }, layers_neurons := [] }⟩

namespace SpikingNetwork

/-- SpikingNetwork.__init__ (src/snn/spiking_network.py lines 26-46): empty
neuron store, empty graph, empty layers, empty amplitude vector, zeroed clock
cursor and quadrant counter.  The source computes clk_freq_sine as
np.sin(arange(clk_freq // 4) / (clk_freq // 4) * (pi/2)); its real-valued
content is modelled by clkSine, and the network carries the stored table as
the parameter sine. -/
def init (clk_freq : ℕ) (sine : List ℚ) : SpikingNetwork :=
  { clk_freq := clk_freq, clk_freq_sine := sine, clk_freq_i := 0, clk_freq_qrt := 0,
    amplitude := [], enable_by := [], neurons := [],
    spikes_graph := { edges := [], spikes := [] }, layers_neurons := [] }

/-- SpikingNetwork.add_amplitude (lines 48-49): append one amplitude scalar. -/
def add_amplitude (net : SpikingNetwork) (amplitude : ℚ) : SpikingNetwork :=
  { net with amplitude := net.amplitude ++ [amplitude] }

/-- SpikingNetwork.add_neuron (lines 60-63): append the neuron, register a
graph node (which assigns the neuron its id, visible through Python object
aliasing; here the placed neuron is returned), and append the "always
enabled" sentinel -1 to enable_by. -/
def add_neuron (net : SpikingNetwork) (neuron : SCTNeuron) : SpikingNetwork × SCTNeuron :=
  let r := net.spikes_graph.add_node
  let placed := { neuron with _id := r.2 }
  ({ net with neurons := net.neurons ++ [placed],
              spikes_graph := r.1,
              enable_by := net.enable_by ++ [-1] }, placed)

/-- SpikingNetwork.connect_by_id (lines 91-92). -/
def connect_by_id (net : SpikingNetwork) (source_id target_id : ℕ) : SpikingNetwork :=
  { net with spikes_graph := net.spikes_graph.connect_by_id source_id target_id }

/-- SpikingNetwork.connect (lines 88-89): connect by the two neurons' ids. -/
def connect (net : SpikingNetwork) (source_neuron target_neuron : SCTNeuron) : SpikingNetwork :=
  net.connect_by_id source_neuron._id target_neuron._id

/-- SpikingNetwork.connect_enable_by_id (lines 94-95): record that target is
enabled by source, overwriting any previous controller. -/
def connect_enable_by_id (net : SpikingNetwork) (source_id target_id : ℕ) : SpikingNetwork :=
  { net with enable_by := net.enable_by.set target_id (source_id : ℤ) }

/-- SpikingNetwork.is_enable (lines 148-150): a neuron is enabled when
nothing is connected to its enable gate (sentinel -1) or the controlling
neuron's current spike-graph value equals 1.  The source reads self.enable_by
and self.spikes_graph; the two fields are passed explicitly. -/
def is_enable (eb : List ℤ) (g : DirectedEdgeListGraph) (neuron : SCTNeuron) : Bool :=
  eb.getD neuron._id (-1) == -1 ||
    g.spikes.getD (eb.getD neuron._id (-1)).toNat 0 == 1

end SpikingNetwork

/-- One work item of a network tick: the neuron to cycle, together with the
spike value that is written onto its graph node just before its cycle (this
pre-write exists exactly for input-layer neurons, src/snn/spiking_network.py
lines 101-102, where the value is spike_train[j]). -/
abbrev TickItem : Type := Option ℚ × SCTNeuron

/-- Apply a tick item's pre-write to the graph: for an input-layer neuron the
network first executes self.spikes_graph.update_spike(neuron, spike_train[j])
(line 102); other neurons have no pre-write. -/
def preWriteG (g : DirectedEdgeListGraph) (it : TickItem) : DirectedEdgeListGraph :=
  match it.1 with
  | some v => g.update_spike it.2._id v
  | none => g

/-- One iteration of the neuron loop of SpikingNetwork.input (lines 100-105):
optional pre-write of the input spike, enable lookup, the neuron's cycle on
the spikes currently present on its incoming edges, and the write-back of the
emitted value.  Returns the new graph, the updated neuron, and the emitted
value. -/
def stepItem (eb : List ℤ) (g : DirectedEdgeListGraph) (it : TickItem) :
    DirectedEdgeListGraph × SCTNeuron × ℚ :=
  let g1 := preWriteG g it
  let enable := SpikingNetwork.is_enable eb g1 it.2
  let r := ctn_cycle it.2 (g1.get_input_spikes_to it.2._id) enable
  (g1.update_spike it.2._id r.2, r.1, r.2)

/-- The tick expressed as one pass over the flattened work-item list; used to
analyse the intermediate graph states of SpikingNetwork.input.  Returns the
final graph and the list of (updated neuron, emitted value) in processing
order. -/
def runFlat (eb : List ℤ) (g : DirectedEdgeListGraph) :
    List TickItem → DirectedEdgeListGraph × List (SCTNeuron × ℚ)
  | [] => (g, [])
  | it :: rest =>
    let s := stepItem eb g it
    let r := runFlat eb s.1 rest
    (r.1, (s.2.1, s.2.2) :: r.2)

/-- The inner loop of SpikingNetwork.input (lines 100-105): process the
neurons of one layer in order. j is the running index into the layer, used to
read spike_train[j] for the input layer. -/
def runLayer (eb : List ℤ) (first : Bool) (train : List ℚ)
    (g : DirectedEdgeListGraph) (j : ℕ) :
    List SCTNeuron → DirectedEdgeListGraph × List SCTNeuron
  | [] => (g, [])
  | n :: rest =>
    let s := stepItem eb g (if first then some (train.getD j 0) else none, n)
    let r := runLayer eb first train s.1 (j + 1) rest
    (r.1, s.2.1 :: r.2)

/-- The outer loop of SpikingNetwork.input (lines 99-105): process the layers
in insertion order; only the first layer (i == 0) receives the pre-written
input spikes. -/
def runLayers (eb : List ℤ) (train : List ℚ) (g : DirectedEdgeListGraph) :
    Bool → List SCTNLayer → DirectedEdgeListGraph × List SCTNLayer
  | _, [] => (g, [])
  | first, l :: rest =>
    let s := runLayer eb first train g 0 l.neurons
    let r := runLayers eb train s.1 false rest
    (r.1, ⟨s.2⟩ :: r.2)

/-- The flattened work-item list of one tick: layer-by-layer, neurons in
order, input-layer neurons paired with their pre-write spike_train[j]. -/
def layerItems (first : Bool) (train : List ℚ) (j : ℕ) :
    List SCTNeuron → List TickItem
  | [] => []
  | n :: rest =>
    (if first then some (train.getD j 0) else none, n) :: layerItems first train (j + 1) rest

/-- All work items of one tick, in processing order. -/
def flatItems (train : List ℚ) : Bool → List SCTNLayer → List TickItem
  | _, [] => []
  | first, l :: rest => layerItems first train 0 l.neurons ++ flatItems train false rest

namespace SpikingNetwork

/-- SpikingNetwork.input (lines 97-107): one network tick.  For each layer in
insertion order and each neuron inside it: pre-write the input spike (first
layer only), look up the enable gate, run the neuron's cycle on its current
incoming spikes, and write the emitted value back into the graph.  Afterwards
return the spike-graph values at the final layer's neuron ids.  Reading
spike_train out of range raises IndexError in Python; here the read defaults
to 0 and the error is modelled at the input_potential boundary, the only
caller the claims exercise. -/
def input (net : SpikingNetwork) (spike_train : List ℚ) : SpikingNetwork × List ℚ :=
  let r := runLayers net.enable_by spike_train net.spikes_graph true net.layers_neurons
  let net1 := { net with spikes_graph := r.1, layers_neurons := r.2 }
  (net1, (net1.layers_neurons.getLastD default).neurons.map
    (fun n => r.1.spikes.getD n._id 0))

end SpikingNetwork

/-- The cursor/quadrant advance at the start of SpikingNetwork.input_potential
(lines 122-125): the cursor increments once per call; when it reaches the
quarter-table length it wraps to 0 and the quadrant counter steps modulo 4. -/
def clkAdvance (tableLen i qrt : ℕ) : ℕ × ℕ :=
  let i1 := i + 1
  if i1 = tableLen then (0, (qrt + 1) % 4) else (i1, qrt)

/-- SpikingNetwork._calculate_clk (lines 135-142), generic in the value type
so that the same definition serves the rational network state and the
real-valued table analysis.  In odd quadrants the source reads
clk_freq_sine[-clk_freq_i]: Python negative indexing, i.e. entry
(length - i) % length (entry 0 when i = 0).  In quadrants 2 and 3 the value
is negated. -/
def calculate_clk {α : Type} [Zero α] [Neg α] (sine : List α) (i qrt : ℕ) : α :=
  let p := if qrt % 2 = 1 then sine.getD ((sine.length - i) % sine.length) 0
           else sine.getD i 0
  if 2 ≤ qrt then -p else p

/-- Truncation of a rational toward zero, the rounding used by numpy's
astype(np.int16) on the scaled sample (line 121). -/
def ratTrunc (x : ℚ) : ℤ := x.num.tdiv x.den

/-- Two's-complement wrap into the signed 16-bit range, modelling the
fixed-width integer domain of astype(np.int16). -/
def int16wrap (t : ℤ) : ℤ := (t + 2 ^ 15) % 2 ^ 16 - 2 ^ 15

/-- The int16 quantization applied to each scaled sample entry (line 121),
returned as the rational it injects. -/
def quant16 (x : ℚ) : ℚ := ((int16wrap (ratTrunc x) : ℤ) : ℚ)

/-- Elementwise product with numpy 1-d broadcasting semantics, modelling
potential * self.amplitude (line 121): equal lengths multiply pointwise, a
length-1 operand is broadcast across the other, and any other length
combination raises ValueError (here: none). -/
def numpyMul (a b : List ℚ) : Option (List ℚ) :=
  if a.length = b.length then some (List.zipWith (fun x y => x * y) a b)
  else if a.length = 1 then some (b.map (fun y => a.getD 0 0 * y))
  else if b.length = 1 then some (a.map (fun x => x * b.getD 0 0))
  else none

/-- One iteration of the injection loop of input_potential (lines 128-131):
overwrite the neuron's membrane potential with its potential entry, or with
the shared clock sample _calculate_clk() when the neuron's use_clk_input
flag is set. -/
def injectOne (sine : List ℚ) (i qrt : ℕ) (p : ℚ) (n : SCTNeuron) : SCTNeuron :=
  { n with membrane_potential :=
      if n.use_clk_input then calculate_clk sine i qrt else p }

/-- The injection loop of SpikingNetwork.input_potential (lines 127-131):
walk the quantized potentials and the input-layer neurons in parallel.
Neurons beyond the potential vector are left untouched (the source loop
ranges over the potential vector). -/
def injectPotentials (sine : List ℚ) (i qrt : ℕ) :
    List ℚ → List SCTNeuron → List SCTNeuron
  | _, [] => []
  | [], ns => ns
  | p :: ps, n :: ns =>
    injectOne sine i qrt p n :: injectPotentials sine i qrt ps ns

namespace SpikingNetwork

/-- The state transformation of input_potential before the tick itself: the
clock cursor/quadrant advance (lines 122-125) followed by the membrane
injection into the first layer (lines 127-131).  The spike graph is not
touched. -/
def injectStage (net : SpikingNetwork) (potential : List ℚ) : SpikingNetwork :=
  let a := clkAdvance net.clk_freq_sine.length net.clk_freq_i net.clk_freq_qrt
  let layer0 := (net.layers_neurons.getD 0 default).neurons
  { net with
      clk_freq_i := a.1,
      clk_freq_qrt := a.2,
      layers_neurons := net.layers_neurons.set 0
        ⟨injectPotentials net.clk_freq_sine a.1 a.2 potential layer0⟩ }

/-- SpikingNetwork.input_potential (lines 120-133): scale the sample by the
amplitude vector (numpy broadcasting; ValueError when the lengths are
incompatible), quantize to int16, advance the clock, inject the potentials
into the input layer, and run one tick with an all-zero spike train of the
potential vector's length.  Python raises IndexError when the potential
vector is longer than the input layer (line 128) or shorter than it (line
102, spike_train[j]); both error paths are collapsed into the single length
check below, so the call succeeds exactly when the broadcast product's
length equals the input-layer size. -/
def input_potential (net : SpikingNetwork) (sample : List ℚ) :
    Option (SpikingNetwork × List ℚ) :=
  match numpyMul sample net.amplitude with
  | none => none
  | some prod =>
    let potential := prod.map quant16
    if potential.length = (net.layers_neurons.getD 0 default).neurons.length then
      some ((net.injectStage potential).input (List.replicate potential.length 0))
    else
      none

end SpikingNetwork

/-- The accumulation loop of SpikingNetwork.input_full_data (lines 111-113):
feed each sample in order, adding each tick's final-layer output vector into
the running classes vector. -/
def inputFullGo : SpikingNetwork → List ℚ → List (List ℚ) →
    Option (SpikingNetwork × List ℚ)
  | net, classes, [] => some (net, classes)
  | net, classes, d :: rest =>
    match net.input_potential d with
    | none => none
    | some r => inputFullGo r.1 (List.zipWith (fun x y => x + y) classes r.2) rest

namespace SpikingNetwork

/-- SpikingNetwork.input_full_data (lines 109-114): start from a zero vector
sized by the final layer, tick the network once per sample in sequence order,
and accumulate the final-layer outputs. -/
def input_full_data (net : SpikingNetwork) (data : List (List ℚ)) :
    Option (SpikingNetwork × List ℚ) :=
  inputFullGo net
    (List.replicate (net.layers_neurons.getLastD default).neurons.length 0) data

end SpikingNetwork

/-- Sequential per-sample runner that keeps the whole per-tick output trace
instead of accumulating it; used to state what input_full_data computes. -/
def runTicks : SpikingNetwork → List (List ℚ) →
    Option (SpikingNetwork × List (List ℚ))
  | net, [] => some (net, [])
  | net, d :: rest =>
    match net.input_potential d with
    | none => none
    | some r =>
      match runTicks r.1 rest with
      | none => none
      | some rr => some (rr.1, r.2 :: rr.2)

/-- Elementwise sum of a list of vectors, starting from the zero vector of
the given length. -/
def sumVecs (len : ℕ) (ts : List (List ℚ)) : List ℚ :=
  ts.foldl (fun acc v => List.zipWith (fun x y => x + y) acc v)
    (List.replicate len 0)

/-- The per-neuron spike-tick histories of a network, layer by layer. -/
def spikeHistories (net : SpikingNetwork) : List (List (List ℕ)) :=
  net.layers_neurons.map (fun l => l.neurons.map (fun n => n.out_spikes))

/-- One iteration of the per-neuron loop of SpikingNetwork.add_layer (lines
52-56): register the neuron (when add_neurons), then densely connect the
previous layer's neurons to it (when connect_neurons and a previous layer
exists).  Returns the grown network and the placed neuron (which the
source's layer object sees through aliasing). -/
def addLayerStep (addNs connectNs : Bool) (net : SpikingNetwork)
    (n : SCTNeuron) : SpikingNetwork × SCTNeuron :=
  let p := if addNs then net.add_neuron n else (net, n)
  let connected :=
    if connectNs && !p.1.layers_neurons.isEmpty then
      (p.1.layers_neurons.getLastD default).neurons.foldl
        (fun g src => g.connect_by_id src._id p.2._id) p.1.spikes_graph
    else p.1.spikes_graph
  ({ p.1 with spikes_graph := connected }, p.2)

/-- The per-neuron loop of SpikingNetwork.add_layer (lines 51-56). -/
def addLayerNeurons (addNs connectNs : Bool) :
    SpikingNetwork → List SCTNeuron → SpikingNetwork × List SCTNeuron
  | net, [] => (net, [])
  | net, n :: rest =>
    let p := addLayerStep addNs connectNs net n
    let r := addLayerNeurons addNs connectNs p.1 rest
    (r.1, p.2 :: r.2)

namespace SpikingNetwork

/-- SpikingNetwork.add_layer (lines 51-58): run the per-neuron loop, then
append the layer (holding the placed neurons) to the layer list. -/
def add_layer (net : SpikingNetwork) (layer : SCTNLayer) (addNs connectNs : Bool) :
    SpikingNetwork :=
  let r := addLayerNeurons addNs connectNs net layer.neurons
  { r.1 with layers_neurons := r.1.layers_neurons ++ [⟨r.2⟩] }

end SpikingNetwork

/-- The layer loop of SpikingNetwork.add_network (lines 79-83): merge the
incoming network's layers elementwise into the existing ones; once the
receiver runs out of layers, the remaining incoming layers are appended. -/
def mergeLayers : List SCTNLayer → List SCTNLayer → List SCTNLayer
  | xs, [] => xs
  | [], ys => ys
  | x :: xs, y :: ys => x.merge y :: mergeLayers xs ys

namespace SpikingNetwork

/-- SpikingNetwork.add_network (lines 65-83): merge the two spike graphs
(which yields the id offset), shift every imported neuron's id by the offset
(the source mutates the shared neuron objects, so the imported layers see the
same shift; here it is applied to both copies explicitly), append the
imported neurons, amplitudes and enable_by entries (non-sentinel entries
shifted by the offset), and merge the layer lists.  The source method has no
return statement, so it returns Python's None, modelled as the second
component none. -/
def add_network (net other : SpikingNetwork) : SpikingNetwork × Option ℕ :=
  let rg := net.spikes_graph.add_graph other.spikes_graph
  let offset := rg.2
  let shifted := other.neurons.map (fun n => { n with _id := n._id + offset })
  let shiftedLayers := other.layers_neurons.map
    (fun l => (⟨l.neurons.map (fun n => { n with _id := n._id + offset })⟩ : SCTNLayer))
  ({ net with
      spikes_graph := rg.1,
      neurons := net.neurons ++ shifted,
      amplitude := net.amplitude ++ other.amplitude,
      enable_by := net.enable_by ++
        other.enable_by.map (fun e => if e = -1 then e else e + (offset : ℤ)),
      layers_neurons := mergeLayers net.layers_neurons shiftedLayers }, none)

end SpikingNetwork

/-- The invariant of claim C9: the enable_by list has one entry per neuron
(spec section 3, Network invariants). -/
def enableInv (net : SpikingNetwork) : Prop :=
  net.enable_by.length = net.neurons.length

/-- The real-valued quarter-wave sine table built by SpikingNetwork.__init__
(lines 37-38): n equally spaced samples of sin on [0, pi/2), where the
source's n is clk_freq // 4. -/
noncomputable def clkSine (n : ℕ) : List ℝ :=
  (List.range n).map (fun k : ℕ => Real.sin ((k : ℝ) / (n : ℝ) * (Real.pi / 2)))

/-- The clock cursor/quadrant state after t calls of input_potential,
starting from the constructor state (0, 0) and advancing with clkAdvance
once per call. -/
def clkStateAfter (n : ℕ) : ℕ → ℕ × ℕ
  | 0 => (0, 0)
  | t + 1 =>
    let s := clkStateAfter n t
    clkAdvance n s.1 s.2

/-- The internally generated clock value consumed by use_clk_input neurons at
tick t (t ≥ 1 is the t-th input_potential call): _calculate_clk evaluated on
the real-valued quarter-wave table at the advanced cursor/quadrant state. -/
noncomputable def clkSample (n t : ℕ) : ℝ :=
  calculate_clk (clkSine n) (clkStateAfter n t).1 (clkStateAfter n t).2

/-- A neuron with the factory defaults of the embedding: id 0, identity
activation, no synapses, no leakage step (leakage_period = 0), zero membrane
potential, empty spike history. -/
def baseNeuron : SCTNeuron := default

/-- A one-input-neuron network used to instantiate theorems with hypotheses
on a concrete input: a single identity neuron in one layer, amplitude vector
[1], empty clock table. -/
def netW : SpikingNetwork :=
  { clk_freq := 4, clk_freq_sine := [], clk_freq_i := 0, clk_freq_qrt := 0,
    amplitude := [1], enable_by := [-1], neurons := [baseNeuron],
    spikes_graph := { edges := [], spikes := [0] },
    layers_neurons := [⟨[baseNeuron]⟩] }

/-- The state of netW after feeding the single sample vector [1]: the clock
cursor advanced once, the injected-and-cycled neuron holds membrane 1, and
its emitted value 1 sits in the spike graph (net.neurons keeps the stale
pre-tick copies, as the source's aliased list is not consulted by input). -/
def netWafter : SpikingNetwork :=
  { clk_freq := 4, clk_freq_sine := [], clk_freq_i := 1, clk_freq_qrt := 0,
    amplitude := [1], enable_by := [-1], neurons := [baseNeuron],
    spikes_graph := { edges := [], spikes := [1] },
    layers_neurons := [⟨[{ baseNeuron with
      membrane_potential := 1, leakage_timer := 1, tick_index := 1 }]⟩] }

/-- Concrete network for claim C3: one input neuron (id 0), then one layer
with two sibling neurons, id 1 (membrane 7, identity, no synapses) processed
before id 2 (one synapse of weight 1 on the edge 1 → 2).  The tick-start
spike value of neuron 1 is 5. -/
def netC3 : SpikingNetwork :=
  { clk_freq := 4, clk_freq_sine := [], clk_freq_i := 0, clk_freq_qrt := 0,
    amplitude := [], enable_by := [-1, -1, -1],
    neurons := [baseNeuron,
      { baseNeuron with _id := 1, membrane_potential := 7 },
      { baseNeuron with _id := 2, synapses_weights := [1] }],
    spikes_graph := { edges := [(1, 2)], spikes := [0, 5, 0] },
    layers_neurons := [⟨[baseNeuron]⟩,
      ⟨[{ baseNeuron with _id := 1, membrane_potential := 7 },
        { baseNeuron with _id := 2, synapses_weights := [1] }]⟩] }

/-- The gated neuron of netC5: id 1, membrane potential 8, and a leakage
step of half the potential every tick (leakage_period 1, leakage_factor 1). -/
def gatedNeuron : SCTNeuron :=
  { baseNeuron with
      _id := 1, membrane_potential := 8, leakage_period := 1, leakage_factor := 1 }

/-- Concrete network for claim C5: neuron 0 (the controller, which emits 0
this tick) gates neuron 1 via enable_by = [−1, 0]; neuron 1 starts with
membrane potential 8 and a leakage step of half the potential every tick
(leakage_period 1, leakage_factor 1). -/
def netC5 : SpikingNetwork :=
  { clk_freq := 4, clk_freq_sine := [], clk_freq_i := 0, clk_freq_qrt := 0,
    amplitude := [], enable_by := [-1, 0],
    neurons := [baseNeuron, gatedNeuron],
    spikes_graph := { edges := [], spikes := [0, 0] },
    layers_neurons := [⟨[baseNeuron]⟩, ⟨[gatedNeuron]⟩] }

/-- Concrete network for claim C8: two input neurons and the matching
amplitude vector [2, 3]. -/
def netC8 : SpikingNetwork :=
  { clk_freq := 4, clk_freq_sine := [], clk_freq_i := 0, clk_freq_qrt := 0,
    amplitude := [2, 3], enable_by := [-1, -1],
    neurons := [baseNeuron, { baseNeuron with _id := 1 }],
    spikes_graph := { edges := [], spikes := [0, 0] },
    layers_neurons := [⟨[baseNeuron, { baseNeuron with _id := 1 }]⟩] }

/-- Concrete receiving network for claim C4: one neuron, one layer, one
amplitude entry, one graph node. -/
def netA : SpikingNetwork :=
  { clk_freq := 4, clk_freq_sine := [], clk_freq_i := 0, clk_freq_qrt := 0,
    amplitude := [1], enable_by := [-1], neurons := [baseNeuron],
    spikes_graph := { edges := [], spikes := [0] },
    layers_neurons := [⟨[baseNeuron]⟩] }

/-- Concrete imported network for claim C4: one neuron with membrane 3, one
layer, one amplitude entry, one graph node. -/
def netB : SpikingNetwork :=
  { clk_freq := 4, clk_freq_sine := [], clk_freq_i := 0, clk_freq_qrt := 0,
    amplitude := [2], enable_by := [-1],
    neurons := [{ baseNeuron with membrane_potential := 3 }],
    spikes_graph := { edges := [], spikes := [0] },
    layers_neurons := [⟨[{ baseNeuron with membrane_potential := 3 }]⟩] }

instance (net : SpikingNetwork) : Decidable (enableInv net) := by
  unfold enableInv; infer_instance

/-- A two-node spike graph with tick-start spike values [0, 0], used to
instantiate the tick-visibility and enable-gating theorems concretely. -/
def gW3 : DirectedEdgeListGraph := { edges := [], spikes := [0, 0] }

/-- The length of the numpy 1-d broadcast product of two vectors of the
given lengths (defined when they are equal or one of them is 1). -/
def broadcastLen (a b : ℕ) : ℕ :=
  if a = b then a else if a = 1 then b else a

/-- The number of neurons in the network's final layer. -/
def lastLayerLen (net : SpikingNetwork) : ℕ :=
  (net.layers_neurons.getLastD default).neurons.length

theorem getD_set_self {α : Type} (l : List α) (i : ℕ) (v d : α) (h : i < l.length) :
    (l.set i v).getD i d = v := by
  induction l generalizing i with
  | nil => simp at h
  | cons a as ih =>
    cases i with
    | zero => simp [List.set]
    | succ j => simpa [List.set] using ih j (by simpa using h)

theorem getD_set_ne {α : Type} (l : List α) (i j : ℕ) (v d : α) (h : i ≠ j) :
    (l.set i v).getD j d = l.getD j d := by
  induction l generalizing i j with
  | nil => simp [List.set]
  | cons a as ih =>
    cases i with
    | zero =>
      cases j with
      | zero => exact absurd rfl h
      | succ k => simp [List.set]
    | succ i0 =>
      cases j with
      | zero => simp [List.set]
      | succ k => simpa [List.set] using ih i0 k (fun e => h (by rw [e]))

theorem getD_append_of_length {α : Type} (l m : List α) (k : ℕ) (d : α) :
    (l ++ m).getD (l.length + k) d = m.getD k d := by
  induction l with
  | nil => simp
  | cons a as ih => simpa [Nat.succ_add] using ih

theorem getD_replicate_zero (k j : ℕ) : (List.replicate k (0 : ℚ)).getD j 0 = 0 := by
  induction k generalizing j with
  | zero => simp
  | succ k0 ih =>
    cases j with
    | zero => simp [List.replicate]
    | succ j0 => simp [List.replicate]

theorem update_spike_length (g : DirectedEdgeListGraph) (id : ℕ) (v : ℚ) :
    (g.update_spike id v).spikes.length = g.spikes.length := by
  simp [DirectedEdgeListGraph.update_spike]

theorem preWriteG_length (g : DirectedEdgeListGraph) (it : TickItem) :
    (preWriteG g it).spikes.length = g.spikes.length := by
  cases h : it.1 <;> simp [preWriteG, h, DirectedEdgeListGraph.update_spike]

theorem stepItem_length (eb : List ℤ) (g : DirectedEdgeListGraph) (it : TickItem) :
    (stepItem eb g it).1.spikes.length = g.spikes.length := by
  show ((preWriteG g it).update_spike it.2._id _).spikes.length = _
  rw [DirectedEdgeListGraph.update_spike]
  simpa using preWriteG_length g it

theorem runFlat_length (eb : List ℤ) (g : DirectedEdgeListGraph)
    (items : List TickItem) :
    (runFlat eb g items).1.spikes.length = g.spikes.length := by
  induction items generalizing g with
  | nil => rfl
  | cons it rest ih => simpa [runFlat] using (ih _).trans (stepItem_length eb g it)

theorem preWriteG_frame (g : DirectedEdgeListGraph) (it : TickItem) (id : ℕ)
    (h : it.2._id ≠ id) :
    (preWriteG g it).spikes.getD id 0 = g.spikes.getD id 0 := by
  cases hp : it.1 with
  | none => simp [preWriteG, hp]
  | some v => simpa [preWriteG, hp, DirectedEdgeListGraph.update_spike] using
      getD_set_ne g.spikes it.2._id id v 0 h

theorem stepItem_frame (eb : List ℤ) (g : DirectedEdgeListGraph) (it : TickItem)
    (id : ℕ) (h : it.2._id ≠ id) :
    (stepItem eb g it).1.spikes.getD id 0 = g.spikes.getD id 0 := by
  show ((preWriteG g it).update_spike it.2._id _).spikes.getD id 0 = _
  rw [DirectedEdgeListGraph.update_spike]
  calc ((preWriteG g it).spikes.set it.2._id _).getD id 0
      = (preWriteG g it).spikes.getD id 0 := getD_set_ne _ _ _ _ _ h
    _ = g.spikes.getD id 0 := preWriteG_frame g it id h

theorem runFlat_frame (eb : List ℤ) (g : DirectedEdgeListGraph)
    (items : List TickItem) (id : ℕ) (h : ∀ it ∈ items, it.2._id ≠ id) :
    (runFlat eb g items).1.spikes.getD id 0 = g.spikes.getD id 0 := by
  induction items generalizing g with
  | nil => rfl
  | cons it rest ih =>
    have h1 : it.2._id ≠ id := h it (by simp)
    have h2 : ∀ x ∈ rest, x.2._id ≠ id := fun x hx => h x (by simp [hx])
    calc (runFlat eb (stepItem eb g it).1 rest).1.spikes.getD id 0
        = (stepItem eb g it).1.spikes.getD id 0 := ih _ h2
      _ = g.spikes.getD id 0 := stepItem_frame eb g it id h1

theorem stepItem_writes (eb : List ℤ) (g : DirectedEdgeListGraph) (it : TickItem)
    (h : it.2._id < g.spikes.length) :
    (stepItem eb g it).1.spikes.getD it.2._id 0 = (stepItem eb g it).2.2 := by
  show ((preWriteG g it).update_spike it.2._id _).spikes.getD it.2._id 0 = _
  rw [DirectedEdgeListGraph.update_spike]
  exact getD_set_self _ _ _ _ (by rw [preWriteG_length]; exact h)

theorem runFlat_append (eb : List ℤ) (g : DirectedEdgeListGraph)
    (a b : List TickItem) :
    (runFlat eb g (a ++ b)).1 = (runFlat eb (runFlat eb g a).1 b).1 := by
  induction a generalizing g with
  | nil => rfl
  | cons it rest ih => simpa [runFlat] using ih (stepItem eb g it).1

theorem runLayer_graph (eb : List ℤ) (first : Bool) (train : List ℚ)
    (g : DirectedEdgeListGraph) (j : ℕ) (ns : List SCTNeuron) :
    (runLayer eb first train g j ns).1 =
      (runFlat eb g (layerItems first train j ns)).1 := by
  induction ns generalizing g j with
  | nil => rfl
  | cons n rest ih => simpa [runLayer, layerItems, runFlat] using ih _ (j + 1)

theorem runLayers_graph (eb : List ℤ) (train : List ℚ)
    (g : DirectedEdgeListGraph) (b : Bool) (ls : List SCTNLayer) :
    (runLayers eb train g b ls).1 = (runFlat eb g (flatItems train b ls)).1 := by
  induction ls generalizing g b with
  | nil => rfl
  | cons l rest ih =>
    show (runLayers eb train (runLayer eb b train g 0 l.neurons).1 false rest).1 = _
    rw [ih _ false, flatItems, runFlat_append, runLayer_graph]

theorem runLayer_sizes (eb : List ℤ) (first : Bool) (train : List ℚ)
    (g : DirectedEdgeListGraph) (j : ℕ) (ns : List SCTNeuron) :
    (runLayer eb first train g j ns).2.length = ns.length := by
  induction ns generalizing g j with
  | nil => rfl
  | cons n rest ih => simpa [runLayer] using ih _ (j + 1)

theorem runLayers_sizes (eb : List ℤ) (train : List ℚ)
    (g : DirectedEdgeListGraph) (b : Bool) (ls : List SCTNLayer) :
    (runLayers eb train g b ls).2.map (fun l => l.neurons.length) =
      ls.map (fun l => l.neurons.length) := by
  induction ls generalizing g b with
  | nil => rfl
  | cons l rest ih => simpa [runLayers, runLayer_sizes] using ih _ false

theorem lastLen_of_map_eq (ls ls' : List SCTNLayer)
    (h : ls'.map (fun l => l.neurons.length) = ls.map (fun l => l.neurons.length)) :
    (ls'.getLastD default).neurons.length = (ls.getLastD default).neurons.length := by
  have h2 : (ls'.map (fun l => l.neurons.length)).getLast? =
      (ls.map (fun l => l.neurons.length)).getLast? := by rw [h]
  rw [List.getLast?_map, List.getLast?_map] at h2
  rw [List.getLastD_eq_getLast?, List.getLastD_eq_getLast?]
  cases hl : ls.getLast? with
  | none =>
    cases hl' : ls'.getLast? with
    | none => rfl
    | some b => rw [hl, hl'] at h2; simp at h2
  | some a =>
    cases hl' : ls'.getLast? with
    | none => rw [hl, hl'] at h2; simp at h2
    | some b => rw [hl, hl'] at h2; simpa using h2

theorem input_lastLen (net : SpikingNetwork) (train : List ℚ) :
    lastLayerLen (net.input train).1 = lastLayerLen net :=
  lastLen_of_map_eq net.layers_neurons _
    (runLayers_sizes net.enable_by train net.spikes_graph true net.layers_neurons)

theorem input_snd_length (net : SpikingNetwork) (train : List ℚ) :
    (net.input train).2.length = lastLayerLen net := by
  show ((((net.input train).1.layers_neurons).getLastD default).neurons.map _).length = _
  rw [List.length_map]
  exact input_lastLen net train

theorem injectPotentials_length (sine : List ℚ) (i qrt : ℕ) (ps : List ℚ)
    (ns : List SCTNeuron) :
    (injectPotentials sine i qrt ps ns).length = ns.length := by
  induction ns generalizing ps with
  | nil => cases ps <;> rfl
  | cons n rest ih =>
    cases ps with
    | nil => rfl
    | cons p ps0 => simpa [injectPotentials] using ih ps0

theorem injectStage_shape (net : SpikingNetwork) (pot : List ℚ) :
    (net.injectStage pot).layers_neurons.map (fun l => l.neurons.length) =
      net.layers_neurons.map (fun l => l.neurons.length) := by
  show (net.layers_neurons.set 0 _).map _ = _
  cases h : net.layers_neurons with
  | nil => rfl
  | cons l rest =>
    simp [List.set, injectPotentials_length, h]

theorem injectStage_lastLen (net : SpikingNetwork) (pot : List ℚ) :
    lastLayerLen (net.injectStage pot) = lastLayerLen net :=
  lastLen_of_map_eq net.layers_neurons _ (injectStage_shape net pot)

theorem input_potential_shape (net : SpikingNetwork) (sample : List ℚ)
    (r : SpikingNetwork × List ℚ) (h : net.input_potential sample = some r) :
    lastLayerLen r.1 = lastLayerLen net ∧ r.2.length = lastLayerLen net := by
  cases hm : numpyMul sample net.amplitude with
  | none => simp [SpikingNetwork.input_potential, hm] at h
  | some prod =>
    simp only [SpikingNetwork.input_potential, hm] at h
    split at h
    · cases h with
      | refl =>
        constructor
        · rw [input_lastLen, injectStage_lastLen]
        · rw [input_snd_length, injectStage_lastLen]
    · simp at h

theorem inputFullGo_eq (net : SpikingNetwork) (classes : List ℚ)
    (data : List (List ℚ)) :
    inputFullGo net classes data =
      Option.map (fun p => (p.1,
        p.2.foldl (fun acc v => List.zipWith (fun x y => x + y) acc v) classes))
        (runTicks net data) := by
  induction data generalizing net classes with
  | nil => rfl
  | cons d rest ih =>
    cases h : net.input_potential d with
    | none => simp [inputFullGo, runTicks, h]
    | some r =>
      cases hrt : runTicks r.1 rest with
      | none => simp [inputFullGo, runTicks, h, hrt, ih]
      | some rr => simp [inputFullGo, runTicks, h, hrt, ih]

theorem inputFullGo_len (net : SpikingNetwork) (classes : List ℚ)
    (data : List (List ℚ)) (r : SpikingNetwork × List ℚ)
    (h : inputFullGo net classes data = some r)
    (hc : classes.length = lastLayerLen net) :
    r.2.length = classes.length := by
  induction data generalizing net classes with
  | nil =>
    cases h with
    | refl => rfl
  | cons d rest ih =>
    cases hp : net.input_potential d with
    | none => simp [inputFullGo, hp] at h
    | some q =>
      rw [inputFullGo] at h
      simp only [hp] at h
      have hs := input_potential_shape net d q hp
      have hlen : (List.zipWith (fun x y => x + y) classes q.2).length = classes.length := by
        rw [List.length_zipWith, hs.2, hc]
        exact Nat.min_self _
      have := ih q.1 _ h (by rw [hlen, hc, hs.1])
      rw [this, hlen]

theorem injectPotentials_nil (sine : List ℚ) (i qrt : ℕ) (ps : List ℚ) :
    injectPotentials sine i qrt ps [] = [] := by
  cases ps <;> rfl

theorem injectOne_membrane (sine : List ℚ) (i qrt : ℕ) (p : ℚ) (n : SCTNeuron) :
    (injectOne sine i qrt p n).membrane_potential =
      if n.use_clk_input then calculate_clk sine i qrt else p := rfl

theorem injectPotentials_getD (sine : List ℚ) (i qrt : ℕ) (ps : List ℚ)
    (ns : List SCTNeuron) (j : ℕ) (hj : j < ns.length) :
    (injectPotentials sine i qrt ps ns).getD j default =
      (if j < ps.length then injectOne sine i qrt (ps.getD j 0) (ns.getD j default)
       else ns.getD j default) := by
  induction ns generalizing ps j with
  | nil => simp at hj
  | cons n rest ih =>
    cases ps with
    | nil => simp [injectPotentials]
    | cons p ps0 =>
      cases j with
      | zero => simp [injectPotentials]
      | succ j0 =>
        simpa [injectPotentials] using ih ps0 j0 (by simpa using hj)

theorem layerItems_zero (k j : ℕ) (first : Bool) (ns : List SCTNeuron)
    (it : TickItem) (h : it ∈ layerItems first (List.replicate k 0) j ns) :
    it.1 = some 0 ∨ it.1 = none := by
  induction ns generalizing j with
  | nil => simp [layerItems] at h
  | cons n rest ih =>
    rw [layerItems] at h
    rcases List.mem_cons.mp h with h1 | h2
    · rw [h1]
      cases first with
      | true => left; simp [getD_replicate_zero]
      | false => right; rfl
    · exact ih (j + 1) h2

theorem flatItems_zero (k : ℕ) (b : Bool) (ls : List SCTNLayer)
    (it : TickItem) (h : it ∈ flatItems (List.replicate k 0) b ls) :
    it.1 = some 0 ∨ it.1 = none := by
  induction ls generalizing b with
  | nil => simp [flatItems] at h
  | cons l rest ih =>
    rw [flatItems] at h
    rcases List.mem_append.mp h with h1 | h2
    · exact layerItems_zero k 0 b l.neurons it h1
    · exact ih false h2

/-- C2: in input_potential, each input-layer neuron receives its scaled and
quantized sample value (or the internal clock sample when its use_clk_input
flag is set) as its injected membrane potential before the tick's cycles run,
the injection stage leaves the spike graph untouched, and the tick is run
with an all-zero spike train, so every pre-cycle spike write of the tick
writes the value 0 — never the raw input value. -/
theorem c2_input_injection (net : SpikingNetwork) (sample prod : List ℚ)
    (h1 : numpyMul sample net.amplitude = some prod)
    (h2 : (prod.map quant16).length =
      (net.layers_neurons.getD 0 default).neurons.length) :
    net.input_potential sample =
      some ((net.injectStage (prod.map quant16)).input
        (List.replicate (prod.map quant16).length 0))
    ∧ (net.injectStage (prod.map quant16)).spikes_graph = net.spikes_graph
    ∧ (∀ j, j < (net.layers_neurons.getD 0 default).neurons.length →
        (((net.injectStage (prod.map quant16)).layers_neurons.getD 0
            default).neurons.getD j default).membrane_potential =
          (if ((net.layers_neurons.getD 0 default).neurons.getD j
              default).use_clk_input
           then calculate_clk net.clk_freq_sine
             (clkAdvance net.clk_freq_sine.length net.clk_freq_i net.clk_freq_qrt).1
             (clkAdvance net.clk_freq_sine.length net.clk_freq_i net.clk_freq_qrt).2
           else quant16 (prod.getD j 0)))
    ∧ (∀ it ∈ flatItems (List.replicate (prod.map quant16).length 0) true
          (net.injectStage (prod.map quant16)).layers_neurons,
        it.1 = some 0 ∨ it.1 = none) := by
  refine ⟨?_, rfl, ?_, ?_⟩
  · simp [SpikingNetwork.input_potential, h1, h2]
  · intro j hj
    have hq0 : quant16 0 = 0 := by decide
    have hlayer : ((net.injectStage (prod.map quant16)).layers_neurons.getD 0
        default).neurons =
        injectPotentials net.clk_freq_sine
          (clkAdvance net.clk_freq_sine.length net.clk_freq_i net.clk_freq_qrt).1
          (clkAdvance net.clk_freq_sine.length net.clk_freq_i net.clk_freq_qrt).2
          (prod.map quant16) (net.layers_neurons.getD 0 default).neurons := by
      show ((net.layers_neurons.set 0 _).getD 0 default).neurons = _
      cases hls : net.layers_neurons with
      | nil => exact (injectPotentials_nil _ _ _ _).symm
      | cons l rest => simp [List.set]
    have hget : (prod.map quant16).getD j 0 = quant16 (prod.getD j 0) := by
      have hm := List.getD_map prod (0 : ℚ) (f := quant16) (n := j)
      rw [hq0] at hm
      exact hm
    rw [hlayer, injectPotentials_getD _ _ _ _ _ j hj,
      if_pos (show j < (prod.map quant16).length by rw [h2]; exact hj),
      injectOne_membrane, hget]
  · intro it hmem
    exact flatItems_zero (prod.map quant16).length true _ it hmem

/-- C2 witness: the concrete network netW with sample [5] and amplitude [1]
injects membrane potential 5 into its single input neuron. -/
theorem c2_witness :
    (((netW.injectStage [(5 : ℚ)]).layers_neurons.getD 0
        default).neurons.getD 0 default).membrane_potential = 5 := by
  have h := (c2_input_injection netW [5] [5] (by decide) (by decide)).2.2.1 0
    (by decide)
  rw [show ([(5 : ℚ)].map quant16) = [(5 : ℚ)] from by decide] at h
  exact h.trans (by decide)

/-- C6: input_full_data ticks the network exactly once per sample in sequence
order (it agrees with the sequential per-sample runner runTicks), each sample
being amplitude-scaled and int16-quantized inside input_potential before
injection, and it returns the elementwise sum over all samples of the final
layer's per-tick output vectors, a vector whose length is the number of
final-layer neurons. -/
theorem c6_input_full_data (net : SpikingNetwork) (data : List (List ℚ)) :
    net.input_full_data data =
      Option.map (fun p => (p.1, sumVecs (lastLayerLen net) p.2))
        (runTicks net data)
    ∧ ∀ r, net.input_full_data data = some r → r.2.length = lastLayerLen net := by
  constructor
  · show inputFullGo net _ data = _
    rw [inputFullGo_eq]
    rfl
  · intro r h
    have := inputFullGo_len net
      (List.replicate (net.layers_neurons.getLastD default).neurons.length 0)
      data r h (by simp [lastLayerLen])
    simpa [lastLayerLen] using this

/-- C6 witness: on the concrete one-neuron network netW fed the single
sample [1], the accumulated output vector has the final layer's length. -/
theorem c6_witness : ((netWafter, [(1 : ℚ)]) : SpikingNetwork × List ℚ).2.length
    = lastLayerLen netW :=
  (c6_input_full_data netW [[1]]).2 (netWafter, [1]) (by decide)

/-- C7: the engine is deterministic — two runs from identical networks on
identical input sequences produce identical input_full_data results and
identical per-neuron spike-tick histories.  The embedded engine is a pure
function of the network state and the samples, so equal inputs give equal
runs. -/
theorem c7_determinism (net1 net2 : SpikingNetwork) (d1 d2 : List (List ℚ))
    (h1 : net1 = net2) (h2 : d1 = d2) :
    net1.input_full_data d1 = net2.input_full_data d2
    ∧ Option.map (fun p => spikeHistories p.1) (net1.input_full_data d1)
        = Option.map (fun p => spikeHistories p.1) (net2.input_full_data d2) := by
  subst h1; subst h2; exact ⟨rfl, rfl⟩

/-- C3 counterexample: in netC3, neurons 1 and 2 sit in the same layer and
neuron 1 is processed first.  Neuron 2's only incoming edge comes from its
sibling neuron 1, whose tick-start spike value is 5 but whose cycle emits 7
earlier in the same tick.  After one tick neuron 2's spike value is 7 — it
read its sibling's just-written value, not the tick-start value 5, refuting
the claim that only sources in strictly earlier layers contribute values
written during the current tick. -/
theorem c3_counterexample :
    (netC3.input [0]).1.spikes_graph.spikes.getD 2 0 = 7
    ∧ netC3.spikes_graph.spikes.getD 1 0 = 5
    ∧ ((7 : ℚ) ≠ 5) :=
  ⟨by decide, by decide, by decide⟩

/-- C3 (amended): a network tick is the layer-ordered, neuron-ordered pass
runFlat over the flattened work items, and during it a spike written for one
neuron is visible to every neuron processed later in the same tick, whether
in a later layer or later in the same layer: when an item itk is processed,
the spike value it reads for a source processed earlier this tick equals that
source's emitted value of this tick, and the value it reads for any id not
written this tick (no earlier item, not itk's own pre-write) is the
tick-start value. -/
theorem c3_same_tick_visibility (eb : List ℤ) (g0 : DirectedEdgeListGraph)
    (pre mid : List TickItem) (itm itk : TickItem)
    (net : SpikingNetwork) (train : List ℚ)
    (hrangem : itm.2._id < g0.spikes.length)
    (hmid : ∀ it ∈ mid, it.2._id ≠ itm.2._id)
    (hk : itk.2._id ≠ itm.2._id) :
    (net.input train).1.spikes_graph =
      (runFlat net.enable_by net.spikes_graph
        (flatItems train true net.layers_neurons)).1
    ∧ (preWriteG (runFlat eb g0 (pre ++ itm :: mid)).1 itk).spikes.getD itm.2._id 0
        = (stepItem eb (runFlat eb g0 pre).1 itm).2.2
    ∧ ∀ id : ℕ, (∀ it ∈ pre ++ itm :: mid, it.2._id ≠ id) → itk.2._id ≠ id →
        (preWriteG (runFlat eb g0 (pre ++ itm :: mid)).1 itk).spikes.getD id 0
          = g0.spikes.getD id 0 := by
  refine ⟨?_, ?_, ?_⟩
  · exact runLayers_graph net.enable_by train net.spikes_graph true net.layers_neurons
  · have h1 : (preWriteG (runFlat eb g0 (pre ++ itm :: mid)).1 itk).spikes.getD
        itm.2._id 0 = (runFlat eb g0 (pre ++ itm :: mid)).1.spikes.getD itm.2._id 0 :=
      preWriteG_frame _ itk itm.2._id hk
    have hsplit : pre ++ itm :: mid = (pre ++ [itm]) ++ mid := by simp
    rw [h1, hsplit, runFlat_append, runFlat_frame eb _ mid itm.2._id hmid,
      runFlat_append]
    show (stepItem eb (runFlat eb g0 pre).1 itm).1.spikes.getD itm.2._id 0 = _
    exact stepItem_writes eb _ itm (by rw [runFlat_length]; exact hrangem)
  · intro id hall hkid
    have h1 : (preWriteG (runFlat eb g0 (pre ++ itm :: mid)).1 itk).spikes.getD id 0
        = (runFlat eb g0 (pre ++ itm :: mid)).1.spikes.getD id 0 :=
      preWriteG_frame _ itk id hkid
    rw [h1]
    exact runFlat_frame eb g0 _ id hall

/-- C3 witness: on the two-node graph gW3, an item for neuron 0 (membrane 3,
identity) processed first leaves its freshly emitted value 3 visible in the
graph state that the next item (neuron 1) reads. -/
theorem c3_witness :
    (preWriteG (runFlat [-1, -1] gW3
        ([] ++ (none, { baseNeuron with membrane_potential := 3 }) :: [])).1
      (none, { baseNeuron with _id := 1 })).spikes.getD 0 0 = 3 := by
  have h := (c3_same_tick_visibility [-1, -1] gW3 [] []
    (none, { baseNeuron with membrane_potential := 3 })
    (none, { baseNeuron with _id := 1 }) netW [0]
    (by decide) (by simp) (by decide)).2.1
  exact h.trans (by decide)

/-- C5 counterexample: in netC5 the gated neuron's enable gate is false for
the tick (its controller's spike value is 0, not 1), and the neuron indeed
emits no spike (its graph value stays 0) — but its state does evolve: the
membrane potential decays from 8 to 4 during the disabled tick, refuting
"the neuron's state does not evolve". -/
theorem c5_counterexample :
    SpikingNetwork.is_enable netC5.enable_by (netC5.input [0]).1.spikes_graph
      gatedNeuron = false
    ∧ (((netC5.input [0]).1.layers_neurons.getD 1 default).neurons.getD 0
        default).membrane_potential = 4
    ∧ gatedNeuron.membrane_potential = 8
    ∧ (netC5.input [0]).1.spikes_graph.spikes.getD 1 0 = 0
    ∧ ((4 : ℚ) ≠ 8) :=
  ⟨by decide, by decide, by decide, by decide, by decide⟩

/-- C5 (amended): on a tick whose enable gate evaluates to false the neuron
emits no spike — the emitted value is 0, the written-back spike value is 0,
and its spike history does not grow — but its internal state still evolves:
the membrane potential becomes the leaked potential plus the integrated
weighted input, and the leak timer and tick counter advance exactly as the
source's literal behavior prescribes (spec section 9 design note). -/
theorem c5_enable_gating (eb : List ℤ) (g0 : DirectedEdgeListGraph)
    (pre : List TickItem) (it : TickItem)
    (hid : it.2._id < g0.spikes.length)
    (hdis : SpikingNetwork.is_enable eb (preWriteG (runFlat eb g0 pre).1 it) it.2
      = false) :
    (stepItem eb (runFlat eb g0 pre).1 it).2.2 = 0
    ∧ (stepItem eb (runFlat eb g0 pre).1 it).1.spikes.getD it.2._id 0 = 0
    ∧ (stepItem eb (runFlat eb g0 pre).1 it).2.1.out_spikes = it.2.out_spikes
    ∧ (stepItem eb (runFlat eb g0 pre).1 it).2.1.membrane_potential =
        (applyLeak it.2).1 + dot it.2.synapses_weights
          ((preWriteG (runFlat eb g0 pre).1 it).get_input_spikes_to it.2._id)
    ∧ (stepItem eb (runFlat eb g0 pre).1 it).2.1.leakage_timer = (applyLeak it.2).2
    ∧ (stepItem eb (runFlat eb g0 pre).1 it).2.1.tick_index = it.2.tick_index + 1 := by
  have hemit : (stepItem eb (runFlat eb g0 pre).1 it).2.2 = 0 := by
    simp [stepItem, ctn_cycle, hdis]
  refine ⟨hemit,
    (stepItem_writes eb _ it (by rw [runFlat_length]; exact hid)).trans hemit,
    ?_, ?_, ?_, ?_⟩ <;> simp [stepItem, ctn_cycle, hdis]

/-- C5 witness: the disabled neuron gatedNeuron (enable entry 0, controller
spike 0 in gW3) halves its membrane potential from 8 to 4 in the disabled
tick. -/
theorem c5_witness :
    (stepItem [-1, 0] (runFlat [-1, 0] gW3 []).1
      (none, gatedNeuron)).2.1.membrane_potential = 4 := by
  have h := (c5_enable_gating [-1, 0] gW3 [] (none, gatedNeuron)
    (by decide) (by decide)).2.2.2.1
  exact h.trans (by decide)

/-- C7 witness: the two-run property instantiated on the concrete network
netW and the one-sample sequence [[1]]. -/
theorem c7_witness :
    netW.input_full_data [[1]] = netW.input_full_data [[1]]
    ∧ Option.map (fun p => spikeHistories p.1) (netW.input_full_data [[1]])
        = Option.map (fun p => spikeHistories p.1) (netW.input_full_data [[1]]) :=
  c7_determinism netW netW [[1]] [[1]] rfl rfl

theorem getD_map_lt {α β : Type} (f : α → β) (l : List α) (k : ℕ) (d : α)
    (d' : β) (h : k < l.length) : (l.map f).getD k d' = f (l.getD k d) := by
  induction l generalizing k with
  | nil => simp at h
  | cons x xs ih =>
    cases k with
    | zero => rfl
    | succ k0 => simpa using ih k0 (by simpa using h)

theorem mergeLayers_length (a b : List SCTNLayer) :
    (mergeLayers a b).length = max a.length b.length := by
  induction a generalizing b with
  | nil => cases b <;> simp [mergeLayers]
  | cons x xs ih =>
    cases b with
    | nil => simp [mergeLayers]
    | cons y ys => simp [mergeLayers, ih, Nat.succ_max_succ]

/-- C4 counterexample: merging the one-layer network netB into the one-layer
network netA leaves a single (merged) layer rather than appending netB's
layer, and add_network returns None (the source method has no return
statement), not the id offset. -/
theorem c4_counterexample :
    (netA.add_network netB).2 = none
    ∧ (netA.add_network netB).1.layers_neurons.length = 1
    ∧ netA.layers_neurons.length + netB.layers_neurons.length = 2
    ∧ ((1 : ℕ) ≠ 2) :=
  ⟨rfl, by decide, by decide, by decide⟩

/-- C4 (amended): add_network renumbers every imported neuron id and every
imported non-sentinel enable_by entry by the uniform offset equal to the
receiving graph's node count at the start of the merge, appends the imported
neurons, amplitudes and enable_by entries after the receiver's own (which are
preserved), merges the imported layers elementwise into the receiver's
layers (appending only the excess), and returns none — the offset is the
internal result of the spikes-graph merge, not add_network's return value. -/
theorem c4_add_network (a b : SpikingNetwork) (k : ℕ) :
    (a.add_network b).2 = none
    ∧ (a.add_network b).1.amplitude = a.amplitude ++ b.amplitude
    ∧ (a.add_network b).1.neurons.length = a.neurons.length + b.neurons.length
    ∧ (a.add_network b).1.neurons.take a.neurons.length = a.neurons
    ∧ (k < b.neurons.length →
        ((a.add_network b).1.neurons.getD (a.neurons.length + k) default)._id
          = (b.neurons.getD k default)._id + a.spikes_graph.spikes.length)
    ∧ (a.add_network b).1.enable_by.take a.enable_by.length = a.enable_by
    ∧ (k < b.enable_by.length →
        (a.add_network b).1.enable_by.getD (a.enable_by.length + k) 0 =
          (if b.enable_by.getD k 0 = -1 then -1
           else b.enable_by.getD k 0 + (a.spikes_graph.spikes.length : ℤ)))
    ∧ (a.add_network b).1.layers_neurons.length =
        max a.layers_neurons.length b.layers_neurons.length
    ∧ (a.add_network b).1.spikes_graph.edges =
        a.spikes_graph.edges ++ b.spikes_graph.edges.map
          (fun e => (e.1 + a.spikes_graph.spikes.length,
                     e.2 + a.spikes_graph.spikes.length))
    ∧ (a.add_network b).1.spikes_graph.spikes.length =
        a.spikes_graph.spikes.length + b.spikes_graph.spikes.length := by
  refine ⟨rfl, rfl, ?_, ?_, ?_, ?_, ?_, ?_, rfl, ?_⟩
  · show (a.neurons ++ _).length = _
    simp
  · show (a.neurons ++ _).take a.neurons.length = a.neurons
    simpa using List.take_left a.neurons _
  · intro hk
    show ((a.neurons ++ b.neurons.map _).getD (a.neurons.length + k) default)._id = _
    rw [getD_append_of_length, getD_map_lt _ _ _ default _ hk]
    rfl
  · show (a.enable_by ++ _).take a.enable_by.length = a.enable_by
    simpa using List.take_left a.enable_by _
  · intro hk
    show (a.enable_by ++ b.enable_by.map _).getD (a.enable_by.length + k) 0 = _
    rw [getD_append_of_length, getD_map_lt _ _ _ 0 _ hk]
    show (if b.enable_by.getD k 0 = -1 then b.enable_by.getD k 0
      else b.enable_by.getD k 0 + ((a.spikes_graph.add_graph b.spikes_graph).2 : ℤ)) = _
    by_cases he : b.enable_by.getD k 0 = -1
    · rw [if_pos he, if_pos he, he]
    · rw [if_neg he, if_neg he]
      rfl
  · show (mergeLayers a.layers_neurons _).length = _
    rw [mergeLayers_length, List.length_map]
  · show (a.spikes_graph.spikes ++ b.spikes_graph.spikes).length = _
    simp

/-- C4 witness: merging netB into netA places netB's neuron (old id 0) at
position 1 with the renumbered id 0 + 1 = 1. -/
theorem c4_witness :
    ((netA.add_network netB).1.neurons.getD 1 default)._id = 1 := by
  have h := (c4_add_network netA netB 0).2.2.2.2.1 (by decide)
  exact h.trans (by decide)

theorem add_neuron_inv (net : SpikingNetwork) (n : SCTNeuron)
    (h : enableInv net) : enableInv (net.add_neuron n).1 := by
  unfold enableInv at h ⊢
  simp [SpikingNetwork.add_neuron, h]

theorem addLayerStep_inv (aN cN : Bool) (net : SpikingNetwork) (n : SCTNeuron)
    (h : enableInv net) : enableInv (addLayerStep aN cN net n).1 := by
  have hp : enableInv (if aN then net.add_neuron n else (net, n)).1 := by
    by_cases ha : aN
    · rw [if_pos ha]; exact add_neuron_inv net n h
    · rw [if_neg ha]; exact h
  have he : (addLayerStep aN cN net n).1.enable_by =
      (if aN then net.add_neuron n else (net, n)).1.enable_by := rfl
  have hn : (addLayerStep aN cN net n).1.neurons =
      (if aN then net.add_neuron n else (net, n)).1.neurons := rfl
  unfold enableInv at hp ⊢
  rw [he, hn]
  exact hp

theorem addLayerNeurons_inv (aN cN : Bool) (net : SpikingNetwork)
    (ns : List SCTNeuron) (h : enableInv net) :
    enableInv (addLayerNeurons aN cN net ns).1 := by
  induction ns generalizing net with
  | nil => exact h
  | cons n rest ih =>
    exact ih (addLayerStep aN cN net n).1 (addLayerStep_inv aN cN net n h)

/-- C9: the invariant "len(enable_by) equals the number of neurons" holds for
a freshly constructed network and is preserved by add_neuron, add_layer,
add_network (given the imported network also satisfies it), connect,
connect_by_id and connect_enable_by_id. -/
theorem c9_enable_by_invariant (net other : SpikingNetwork)
    (nrn na nb : SCTNeuron) (l : SCTNLayer) (aN cN : Bool) (s t c : ℕ)
    (sine : List ℚ) (h : enableInv net) (ho : enableInv other) :
    enableInv (SpikingNetwork.init c sine)
    ∧ enableInv (net.add_neuron nrn).1
    ∧ enableInv (net.add_layer l aN cN)
    ∧ enableInv (net.add_network other).1
    ∧ enableInv (net.connect na nb)
    ∧ enableInv (net.connect_by_id s t)
    ∧ enableInv (net.connect_enable_by_id s t) := by
  refine ⟨rfl, add_neuron_inv net nrn h, ?_, ?_, h, h, ?_⟩
  · exact addLayerNeurons_inv aN cN net l.neurons h
  · show (net.enable_by ++ _).length = (net.neurons ++ _).length
    simp [enableInv] at h ho
    simp [h, ho]
  · show (net.enable_by.set t _).length = net.neurons.length
    rw [List.length_set]
    exact h

/-- C9 witness: the invariant instantiated on the concrete network netW and
the operation connect_enable_by_id. -/
theorem c9_witness : enableInv (netW.connect_enable_by_id 0 0) :=
  (c9_enable_by_invariant netW netW baseNeuron baseNeuron baseNeuron ⟨[]⟩
    true true 0 0 4 [] (by decide) (by decide)).2.2.2.2.2.2

/-- C10: add_neuron initializes the new neuron's enable_by entry to the
sentinel -1; a neuron whose entry is -1 is enabled on every tick regardless
of the graph state; connect_enable_by_id overwrites whatever controller was
previously stored; an entry other than -1 gates the neuron exactly on its
controller's spike value being 1 (so -1 is the only always-enabled
encoding); and ticking the network never changes enable_by. -/
theorem c10_enable_defaults (net : SpikingNetwork) (nrn m : SCTNeuron)
    (g : DirectedEdgeListGraph) (eb : List ℤ) (s t : ℕ) (train : List ℚ)
    (hinv : net.enable_by.length = net.spikes_graph.spikes.length) :
    (net.add_neuron nrn).1.enable_by.getD ((net.add_neuron nrn).2)._id 0 = -1
    ∧ (eb.getD m._id (-1) = -1 → SpikingNetwork.is_enable eb g m = true)
    ∧ (t < net.enable_by.length →
        (net.connect_enable_by_id s t).enable_by.getD t 0 = (s : ℤ))
    ∧ (eb.getD m._id (-1) ≠ -1 →
        (SpikingNetwork.is_enable eb g m = true ↔
          g.spikes.getD (eb.getD m._id (-1)).toNat 0 = 1))
    ∧ (net.input train).1.enable_by = net.enable_by := by
  refine ⟨?_, ?_, ?_, ?_, rfl⟩
  · show (net.enable_by ++ [-1]).getD net.spikes_graph.spikes.length 0 = -1
    rw [← hinv]
    simpa using getD_append_of_length net.enable_by [-1] 0 0
  · intro hb
    simp only [List.getD_eq_getElem?_getD] at hb
    simp [SpikingNetwork.is_enable, hb]
  · intro ht
    exact getD_set_self net.enable_by t (s : ℤ) 0 ht
  · intro he
    simp only [List.getD_eq_getElem?_getD] at he
    simp [SpikingNetwork.is_enable, he]

/-- C10 witness: on netW, connecting neuron 0 as enable controller of neuron
0 stores the controller id 0 in enable_by. -/
theorem c10_witness :
    (netW.connect_enable_by_id 0 0).enable_by.getD 0 0 = (0 : ℤ) :=
  (c10_enable_defaults netW baseNeuron baseNeuron gW3 [-1] 0 0 [0]
    (by decide)).2.2.1 (by decide)

theorem numpyMul_isSome (a b : List ℚ) :
    (numpyMul a b).isSome = true ↔
      (a.length = b.length ∨ a.length = 1 ∨ b.length = 1) := by
  unfold numpyMul
  split_ifs with h1 h2 h3
  · simp [h1]
  · simp [h1, h2]
  · simp [h1, h2, h3]
  · simp [h1, h2, h3]

theorem numpyMul_length (a b prod : List ℚ) (h : numpyMul a b = some prod) :
    prod.length = broadcastLen a.length b.length := by
  unfold numpyMul at h
  unfold broadcastLen
  split_ifs at h with h1 h2 h3
  · cases h with
    | refl => rw [if_pos h1, List.length_zipWith, h1, Nat.min_self]
  · cases h with
    | refl => rw [if_neg h1, if_pos h2, List.length_map]
  · cases h with
    | refl => rw [if_neg h1, if_neg h2, List.length_map]

/-- C8 counterexample: netC8 has two input neurons and amplitude vector
[2, 3], yet feeding the one-element sample [5] is accepted: numpy
broadcasting silently pads the sample across both channels, and both input
neurons get injected potentials (10 and 15) — the engine does not reject the
mismatched vector and silently continues with padded data. -/
theorem c8_counterexample :
    [(5 : ℚ)].length ≠ (netC8.layers_neurons.getD 0 default).neurons.length
    ∧ (netC8.input_potential [5]).isSome = true
    ∧ (((netC8.injectStage [10, 15]).layers_neurons.getD 0
        default).neurons.getD 0 default).membrane_potential = 10
    ∧ (((netC8.injectStage [10, 15]).layers_neurons.getD 0
        default).neurons.getD 1 default).membrane_potential = 15 :=
  ⟨by decide, by decide, by decide, by decide⟩

/-- C8 (amended): a tick accepts the fed sample exactly when the numpy
broadcast product of the sample and the amplitude vector exists (equal
lengths, or either length 1) and has as many entries as the input layer;
a genuinely mismatched sample fails at the tick boundary (Python
ValueError/IndexError, modelled as none), but a length-1 sample against a
multi-channel amplitude vector broadcasts silently, so such a mismatch is
padded rather than rejected. -/
theorem c8_length_mismatch (net : SpikingNetwork) (sample : List ℚ) :
    (net.input_potential sample).isSome = true ↔
      ((sample.length = net.amplitude.length ∨ sample.length = 1 ∨
          net.amplitude.length = 1)
        ∧ broadcastLen sample.length net.amplitude.length =
            (net.layers_neurons.getD 0 default).neurons.length) := by
  cases hm : numpyMul sample net.amplitude with
  | none =>
    have hs : ¬(sample.length = net.amplitude.length ∨ sample.length = 1 ∨
        net.amplitude.length = 1) := by
      rw [← numpyMul_isSome sample net.amplitude, hm]
      simp
    simp [SpikingNetwork.input_potential, hm, hs]
  | some prod =>
    have hs : sample.length = net.amplitude.length ∨ sample.length = 1 ∨
        net.amplitude.length = 1 := by
      rw [← numpyMul_isSome sample net.amplitude, hm]
      simp
    have hlen := numpyMul_length sample net.amplitude prod hm
    simp only [SpikingNetwork.input_potential, hm]
    rw [List.length_map, hlen]
    split_ifs with hc
    all_goals simp only [List.getD_eq_getElem?_getD] at hc
    · simp [hs, hc]
    · simp [hs, hc]

theorem clkStateAfter_eq (n : ℕ) (hn : 0 < n) : ∀ t : ℕ,
    clkStateAfter n t = (t % n, t / n % 4) := by
  intro t
  induction t with
  | zero => simp [clkStateAfter]
  | succ t ih =>
    have hr : t % n < n := Nat.mod_lt _ hn
    have hdm : n * (t / n) + t % n = t := Nat.div_add_mod t n
    show clkAdvance n (clkStateAfter n t).1 (clkStateAfter n t).2 = _
    rw [ih]
    unfold clkAdvance
    dsimp only
    by_cases h : t % n + 1 = n
    · have hmul : n * (t / n + 1) = n * (t / n) + n := by ring
      have he : t + 1 = n * (t / n + 1) := by omega
      have h1 : (t + 1) % n = 0 := by rw [he, Nat.mul_mod_right]
      have h2 : (t + 1) / n = t / n + 1 := by
        rw [he, Nat.mul_div_cancel_left _ hn]
      rw [if_pos h, h1, h2]
      have h3 : (t / n % 4 + 1) % 4 = (t / n + 1) % 4 := by omega
      rw [h3]
    · have he : t + 1 = n * (t / n) + (t % n + 1) := by omega
      have h1 : (t + 1) % n = t % n + 1 := by
        rw [he, Nat.mul_add_mod, Nat.mod_eq_of_lt (by omega)]
      have h2 : (t + 1) / n = t / n := by
        rw [he, Nat.mul_add_div hn,
          Nat.div_eq_of_lt (show t % n + 1 < n by omega), Nat.add_zero]
      rw [if_neg h, h1, h2]

theorem clkSine_length (n : ℕ) : (clkSine n).length = n := by
  simp [clkSine]

theorem clkSine_getD (n k : ℕ) (hk : k < n) :
    (clkSine n).getD k 0 =
      Real.sin ((k : ℝ) / (n : ℝ) * (Real.pi / 2)) := by
  unfold clkSine
  rw [getD_map_lt (fun k : ℕ => Real.sin ((k : ℝ) / (n : ℝ) * (Real.pi / 2)))
    (List.range n) k 0 0 (by simpa using hk)]
  have hr : (List.range n).getD k 0 = k := by
    rw [List.getD_eq_getElem?_getD, List.getElem?_range hk]
    rfl
  rw [hr]

theorem sin_two_pi_nat_add (m : ℕ) (x : ℝ) :
    Real.sin (2 * Real.pi * m + x) = Real.sin x := by
  have h := Real.sin_add_int_mul_two_pi x (m : ℤ)
  have e : x + ((m : ℤ) : ℝ) * (2 * Real.pi) = 2 * Real.pi * m + x := by
    push_cast
    ring
  rw [e] at h
  exact h

theorem sin_pi_div_two_add_eq (x : ℝ) :
    Real.sin (Real.pi / 2 + x) = Real.cos x := by
  rw [Real.sin_add, Real.sin_pi_div_two, Real.cos_pi_div_two]
  ring

theorem calc_clk_eq (n q r m t : ℕ) (hn : 0 < n) (hr : r < n) (hq : q < 4)
    (ht : t = 4 * n * m + n * q + r) :
    calculate_clk (clkSine n) r q =
      (if t % (2 * n) = n then 0 else Real.sin (Real.pi * t / (2 * n))) := by
  have hne : (n : ℝ) ≠ 0 := Nat.cast_ne_zero.mpr hn.ne'
  interval_cases q
  · -- quadrant 0: table read forward, positive
    have h1 : t = 2 * n * (2 * m) + r := by rw [ht]; ring
    have hmod : t % (2 * n) = r := by
      rw [h1, Nat.mul_add_mod, Nat.mod_eq_of_lt (by omega)]
    have hangle : Real.pi * t / (2 * n) =
        2 * Real.pi * m + (r : ℝ) / (n : ℝ) * (Real.pi / 2) := by
      rw [ht]
      push_cast
      field_simp
      ring
    rw [hmod, if_neg (show ¬r = n by omega), hangle, sin_two_pi_nat_add]
    show (clkSine n).getD r 0 = _
    rw [clkSine_getD n r hr]
  · -- quadrant 1: table read reversed, positive
    have h1 : t = 2 * n * (2 * m) + (n + r) := by rw [ht]; ring
    have hmod : t % (2 * n) = n + r := by
      rw [h1, Nat.mul_add_mod, Nat.mod_eq_of_lt (by omega)]
    have hangle : Real.pi * t / (2 * n) = 2 * Real.pi * m +
        (Real.pi / 2 + (r : ℝ) / (n : ℝ) * (Real.pi / 2)) := by
      rw [ht]
      push_cast
      field_simp
      ring
    rw [hmod]
    show (clkSine n).getD (((clkSine n).length - r) % (clkSine n).length) 0 = _
    rw [clkSine_length]
    rcases Nat.eq_zero_or_pos r with hr0 | hr1
    · subst hr0
      rw [if_pos (by omega), Nat.sub_zero, Nat.mod_self, clkSine_getD n 0 hn]
      norm_num
    · have hidx : (n - r) % n = n - r := Nat.mod_eq_of_lt (by omega)
      rw [if_neg (by omega), hidx, clkSine_getD n (n - r) (by omega), hangle,
        sin_two_pi_nat_add, sin_pi_div_two_add_eq]
      have hc : ((n - r : ℕ) : ℝ) / (n : ℝ) * (Real.pi / 2) =
          Real.pi / 2 - (r : ℝ) / (n : ℝ) * (Real.pi / 2) := by
        rw [Nat.cast_sub hr.le]
        field_simp
        ring
      rw [hc, Real.sin_pi_div_two_sub]
  · -- quadrant 2: table read forward, negated
    have h1 : t = 2 * n * (2 * m + 1) + r := by rw [ht]; ring
    have hmod : t % (2 * n) = r := by
      rw [h1, Nat.mul_add_mod, Nat.mod_eq_of_lt (by omega)]
    have hangle : Real.pi * t / (2 * n) = 2 * Real.pi * m +
        ((r : ℝ) / (n : ℝ) * (Real.pi / 2) + Real.pi) := by
      rw [ht]
      push_cast
      field_simp
      ring
    rw [hmod, if_neg (show ¬r = n by omega), hangle, sin_two_pi_nat_add,
      Real.sin_add_pi]
    show -((clkSine n).getD r 0) = _
    rw [clkSine_getD n r hr]
  · -- quadrant 3: table read reversed, negated
    have h1 : t = 2 * n * (2 * m + 1) + (n + r) := by rw [ht]; ring
    have hmod : t % (2 * n) = n + r := by
      rw [h1, Nat.mul_add_mod, Nat.mod_eq_of_lt (by omega)]
    have hangle : Real.pi * t / (2 * n) = 2 * Real.pi * m +
        ((Real.pi / 2 + (r : ℝ) / (n : ℝ) * (Real.pi / 2)) + Real.pi) := by
      rw [ht]
      push_cast
      field_simp
      ring
    rw [hmod]
    show -((clkSine n).getD (((clkSine n).length - r) % (clkSine n).length) 0) = _
    rw [clkSine_length]
    rcases Nat.eq_zero_or_pos r with hr0 | hr1
    · subst hr0
      rw [if_pos (by omega), Nat.sub_zero, Nat.mod_self, clkSine_getD n 0 hn]
      norm_num
    · have hidx : (n - r) % n = n - r := Nat.mod_eq_of_lt (by omega)
      rw [if_neg (by omega), hidx, clkSine_getD n (n - r) (by omega), hangle,
        sin_two_pi_nat_add, Real.sin_add_pi, sin_pi_div_two_add_eq]
      have hc : ((n - r : ℕ) : ℝ) / (n : ℝ) * (Real.pi / 2) =
          Real.pi / 2 - (r : ℝ) / (n : ℝ) * (Real.pi / 2) := by
        rw [Nat.cast_sub hr.le]
        field_simp
        ring
      rw [hc, Real.sin_pi_div_two_sub]

/-- C1 counterexample: with clk_freq = 8 the quarter table has n = 2 entries.
At tick 2 the generator enters quadrant 1 with cursor 0 and Python's
sine[-0] reads sine[0] = sin 0 = 0, while the amplitude-1 sine of period
4 * n = 8 has value sin(2 pi 2 / 8) = 1 there — the emitted waveform is not
the amplitude-1 sine wave, and is not positive in quadrant 1 at that tick. -/
theorem c1_clk_counterexample :
    clkStateAfter 2 2 = (0, 1)
    ∧ clkSample 2 2 = 0
    ∧ Real.sin (2 * Real.pi * 2 / (4 * 2)) = 1
    ∧ clkSample 2 2 ≠ Real.sin (2 * Real.pi * 2 / (4 * 2)) := by
  have hstate : clkStateAfter 2 2 = (0, 1) := by decide
  have hsample : clkSample 2 2 = 0 := by
    show (clkSine 2).getD (((clkSine 2).length - 0) % (clkSine 2).length) 0 = 0
    rw [clkSine_length, Nat.sub_zero, Nat.mod_self,
      clkSine_getD 2 0 (by norm_num)]
    norm_num
  have hsin : Real.sin (2 * Real.pi * 2 / (4 * 2)) = 1 := by
    rw [show (2 * Real.pi * 2 / (4 * 2) : ℝ) = Real.pi / 2 by ring]
    exact Real.sin_pi_div_two
  refine ⟨hstate, hsample, hsin, ?_⟩
  rw [hsample, hsin]
  norm_num

/-- C1 (amended): for n = clk_freq // 4 ≥ 1, the internally generated clock
sample at tick t equals the amplitude-1 sampled sine sin(pi t / (2 n)) — of
period 4 n ticks, nonnegative over quadrants 0-1, nonpositive over quadrants
2-3, with the quarter table read forward in even quadrants and reversed in
odd quadrants — at every tick except those entering an odd quadrant
(t with t mod 2n = n, the sine's extrema), where the cursor has wrapped to 0
and Python's sine[-0] indexing emits sine[0] = 0 instead of the extremum
value 1 or -1; in particular the emitted waveform's amplitude stays strictly
below 1. -/
theorem c1_clk_waveform (n t : ℕ) (hn : 1 ≤ n) :
    clkSample n t =
      (if t % (2 * n) = n then 0 else Real.sin (Real.pi * t / (2 * n))) := by
  have hn0 : 0 < n := hn
  show calculate_clk (clkSine n) (clkStateAfter n t).1 (clkStateAfter n t).2 = _
  rw [clkStateAfter_eq n hn0 t]
  refine calc_clk_eq n (t / n % 4) (t % n) (t / n / 4) t hn0
    (Nat.mod_lt _ hn0) (Nat.mod_lt _ (by norm_num)) ?_
  calc t = n * (t / n) + t % n := (Nat.div_add_mod t n).symm
    _ = n * (4 * (t / n / 4) + t / n % 4) + t % n := by
        rw [Nat.div_add_mod (t / n) 4]
    _ = 4 * n * (t / n / 4) + n * (t / n % 4) + t % n := by ring

/-- C1 witness: with n = 2, at tick 1 (inside quadrant 0) the generator
emits exactly the unit sine sample sin(pi / 4). -/
theorem c1_clk_witness : clkSample 2 1 = Real.sin (Real.pi / 4) := by
  have h := c1_clk_waveform 2 1 (by norm_num)
  rw [if_neg (by norm_num)] at h
  rw [h]
  norm_num

end SNN
